import Mathlib

/-!
Verification of the opentunnel VPN server core against its specification.

The definitions below are a shallow embedding of the TypeScript sources:
  * `src/server/src/protocol/serializer.ts`     (ProtocolSerializer)
  * `src/server/src/protocol/messageHandler.ts` (MessageBuffer)
  * `src/unnamed/part_005`                      (IPPool, ipPool.ts)
  * `src/unnamed/part_006`                      (SessionManager, sessionManager.ts)
  * `src/server/src/routing/packetRouter.ts`    (PacketRouter)
  * `src/server/src/auth/authService.ts`        (AuthService)
  * `src/server/src/session/vpnSession.ts`      (VpnSession)

Node `Buffer` values are modelled as `List Nat` of byte values; 32-bit
reads and writes carry the explicit `% 2 ^ 32` / `% 256` arithmetic of the
JavaScript runtime.
-/

namespace OpenTunnel

/-! ## Frame codec (serializer.ts, messageHandler.ts) -/

/-- The wire unit produced by `ProtocolSerializer.deserialize`:
`{ type, length, payload }`. -/
structure VpnMessage where
  type : Nat
  length : Nat
  payload : List Nat
  deriving Repr, DecidableEq

/-- `buffer.readUInt32BE(off)`: big-endian 32-bit read at byte offset `off`. -/
def readUInt32BE (b : List Nat) (off : Nat) : Nat :=
  b.getD off 0 * 16777216 + b.getD (off + 1) 0 * 65536 +
    b.getD (off + 2) 0 * 256 + b.getD (off + 3) 0

/-- The four big-endian bytes of a 32-bit value, as written by
`buffer.writeUInt32BE`. -/
def be32 (n : Nat) : List Nat :=
  [n / 16777216 % 256, n / 65536 % 256, n / 256 % 256, n % 256]

/-- `ProtocolSerializer.serialize(type, payload)`:
`type(1) || length_be(4) || payload`. -/
def serialize (t : Nat) (p : List Nat) : List Nat :=
  t % 256 :: be32 p.length ++ p

/-- `ProtocolSerializer.serializeDataPacket(data)`: a DATA_PACKET (0x10) frame. -/
def serializeDataPacket (p : List Nat) : List Nat :=
  serialize 16 p

/-- `ProtocolSerializer.deserialize(data)`: returns the message at the head of
the buffer, or `null` when fewer than `5 + length` bytes are available. -/
def deserialize (b : List Nat) : Option VpnMessage :=
  if b.length < 5 then none
  else
    let len := readUInt32BE b 1
    if b.length < 5 + len then none
    else some ⟨b.getD 0 0, len, (b.drop 5).take len⟩

/-- `ProtocolSerializer.getExpectedLength(header)`: `-1` when the header is
short, otherwise `5 + declared length`.  There is no upper bound on the
declared length in the source. -/
def getExpectedLength (b : List Nat) : Int :=
  if b.length < 5 then -1 else ((5 + readUInt32BE b 1 : Nat) : Int)

/-- `MessageBuffer.extractMessage()`: one decode step.  Returns the decoded
message (if a full frame is buffered) together with the remaining buffer. -/
def extractMessage (b : List Nat) : Option VpnMessage × List Nat :=
  if b.length < 5 then (none, b)
  else
    let expected := getExpectedLength b
    if expected = -1 ∨ (b.length : Int) < expected then (none, b)
    else
      match deserialize b with
      | some m => (some m, b.drop (5 + m.length))
      | none => (none, b)

/-- Fuel-indexed loop body of `MessageBuffer.extractAllMessages()`. -/
def extractAllAux : Nat → List Nat → List VpnMessage × List Nat
  | 0, b => ([], b)
  | fuel + 1, b =>
    match extractMessage b with
    | (some m, b2) =>
      let rest := extractAllAux fuel b2
      (m :: rest.1, rest.2)
    | (none, _) => ([], b)

/-- `MessageBuffer.extractAllMessages()`: drain every complete message,
keeping the incomplete tail.  Each successful `extractMessage` consumes at
least five bytes, so `b.length` steps always suffice. -/
def extractAllMessages (b : List Nat) : List VpnMessage × List Nat :=
  extractAllAux b.length b

/-- `MessageHandler.handleData` applied to a sequence of socket fragments:
append each fragment to the streaming buffer, extract after each append, and
collect the extracted messages in order.  Returns the messages and the final
residual buffer. -/
def processFragments : List (List Nat) → List Nat → List VpnMessage × List Nat
  | [], buf => ([], buf)
  | f :: fs, buf =>
    let step1 := extractAllMessages (buf ++ f)
    let rest := processFragments fs step1.2
    (step1.1 ++ rest.1, rest.2)

/-! ## IP pool (ipPool.ts, src/unnamed/part_005)

`IPPool` keys its `usedIPs : Set<string>` by canonical dotted-quad strings
produced by `numberToIP`, which maps a number to the bytes of its value
modulo `2 ^ 32` (the `>>>` coercions).  Since `numberToIP` is injective on
`[0, 2 ^ 32)`, we key the set by `toKey n = n % 2 ^ 32` instead of by the
string itself. -/

/-- The 32-bit key that `numberToIP` assigns to a number: two numbers name
the same dotted-quad string iff they agree modulo `2 ^ 32`. -/
def toKey (n : Nat) : Nat := n % 4294967296

/-- `numberToIP(num)` as the dotted quad of byte values. -/
def numberToIP (n : Nat) : Nat × Nat × Nat × Nat :=
  (n / 16777216 % 256, n / 65536 % 256, n / 256 % 256, n % 256)

/-- Numeric value of a dotted quad, as computed by `ipToNumber` on canonical
inputs (each octet below 256). -/
def ipNum (a b c d : Nat) : Nat :=
  ((a * 256 + b) * 256 + c) * 256 + d

/-- The state of `IPPool`: parsed CIDR parameters plus the lease set. -/
structure IPPool where
  baseIP : Nat
  netmaskBits : Nat
  maxHosts : Nat
  usedIPs : Finset Nat
  deriving DecidableEq

/-- The `IPPool` constructor after parsing `cidr = subnet/bits`:
`baseIP = ipToNumber(subnet)`, `maxHosts = 2^(32-bits) - 2`, and the gateway
(first host) pre-reserved in `usedIPs`. -/
def freshPool (subnetNum bits : Nat) : IPPool :=
  { baseIP := subnetNum % 4294967296
    netmaskBits := bits
    maxHosts := 2 ^ (32 - bits) - 2
    usedIPs := {toKey (subnetNum % 4294967296 + 1)} }

/-- The scan loop of `IPPool.allocate`: try `baseIP + i` for `i` ascending
while `i ≤ maxHosts`; the fuel bounds the number of iterations and is chosen
large enough in `allocate` to cover the whole range. -/
def allocLoop (p : IPPool) : Nat → Nat → Option Nat
  | _, 0 => none
  | i, fuel + 1 =>
    if i ≤ p.maxHosts then
      if toKey (p.baseIP + i) ∈ p.usedIPs then allocLoop p (i + 1) fuel
      else some (p.baseIP + i)
    else none

/-- `IPPool.allocate()`: first free address scanning `i = 2 .. maxHosts`;
`none` models the `null` (exhaustion) return.  On success the address is
added to `usedIPs`. -/
def IPPool.allocate (p : IPPool) : Option (Nat × IPPool) :=
  match allocLoop p 2 p.maxHosts with
  | some ip => some (ip, { p with usedIPs := insert (toKey ip) p.usedIPs })
  | none => none

/-- `IPPool.release(ip)`: delete the address from the lease set; a no-op when
it is not leased (`Set.delete` semantics). -/
def IPPool.release (p : IPPool) (ip : Nat) : IPPool :=
  { p with usedIPs := p.usedIPs.erase (toKey ip) }

/-- `IPPool.isInUse(ip)`. -/
def IPPool.isInUse (p : IPPool) (ip : Nat) : Prop :=
  toKey ip ∈ p.usedIPs

instance (p : IPPool) (ip : Nat) : Decidable (p.isInUse ip) := by
  unfold IPPool.isInUse; infer_instance

/-- `IPPool.getGateway()`: the first host address. -/
def IPPool.getGateway (p : IPPool) : Nat := toKey (p.baseIP + 1)

/-- One client-facing pool operation: an `allocate()` call or a
`release(addr)` call with an arbitrary address. -/
inductive PoolOp where
  | alloc : PoolOp
  | release : Nat → PoolOp
  deriving DecidableEq

/-- Pool state instrumented with the set of addresses currently held by
clients (the addresses returned by `allocate` and not yet released);
the pre-reserved gateway is not a client lease. -/
structure PoolSt where
  pool : IPPool
  clientHeld : Finset Nat
  deriving DecidableEq

/-- Apply one operation of an allocate/release interleaving. -/
def applyOp (st : PoolSt) : PoolOp → PoolSt
  | PoolOp.alloc =>
    match st.pool.allocate with
    | some (ip, p2) => ⟨p2, insert (toKey ip) st.clientHeld⟩
    | none => st
  | PoolOp.release ip => ⟨st.pool.release ip, st.clientHeld.erase (toKey ip)⟩

/-- Apply a finite interleaving of pool operations. -/
def applyOps (st : PoolSt) (ops : List PoolOp) : PoolSt :=
  ops.foldl applyOp st

/-- A fresh pool with no client leases. -/
def freshPoolSt (subnetNum bits : Nat) : PoolSt :=
  ⟨freshPool subnetNum bits, ∅⟩

/-! ## Session state machine (vpnSession.ts)

`VpnSession` is embedded as a small-step machine.  Node's event loop runs
every synchronous block to completion, so each step below is one such block:
the entry of `handleAuth` up to the `await authService.authenticate`, the
resumption of that `await` up to the `await authService.createSession`, the
resumption of that `await` to the end, and the socket / timer callbacks.
The values produced at the two `await` suspension points (the auth result,
the database session id) arrive as events.  `release` and `endSession`
invocations are counted for the teardown claims; `endSession` is counted at
the entry of the cleanup body, which performs it exactly once per entry. -/

/-- `SessionState` (vpnSession.ts). -/
inductive SState where
  | connected | authenticating | authenticated | active
  | disconnecting | disconnected
  deriving DecidableEq, Repr

/-- Program counter of the in-flight `handleAuth` call: not running, suspended
at `await authenticate`, or suspended at `await createSession`. -/
inductive APc where
  | idle | awaitAuth | awaitCreate
  deriving DecidableEq, Repr

/-- The observable per-session state, including its view of the shared pool
and counters for the teardown side effects. -/
structure Sess where
  sstate : SState
  pc : APc
  userId : Option Nat
  assignedIP : Option Nat
  sessionDbId : Option Nat
  pool : IPPool
  releaseCalls : Nat
  endSessionCalls : Nat
  deriving DecidableEq

/-- `VpnSession.cleanup()`: early return on `DISCONNECTED`; otherwise set
`DISCONNECTED`, release the assigned IP if any, and (when a database row
exists) flush stats and end the session. -/
def Sess.cleanup (σ : Sess) : Sess :=
  if σ.sstate = SState.disconnected then σ
  else
    { σ with
      sstate := SState.disconnected
      pool := match σ.assignedIP with
        | some ip => σ.pool.release ip
        | none => σ.pool
      releaseCalls := σ.releaseCalls + (if σ.assignedIP.isSome then 1 else 0)
      endSessionCalls := σ.endSessionCalls + (if σ.sessionDbId.isSome then 1 else 0) }

/-- `VpnSession.close()`: early return on `DISCONNECTED`; otherwise move to
`DISCONNECTING`, send DISCONNECT, and run `cleanup`. -/
def Sess.close (σ : Sess) : Sess :=
  if σ.sstate = SState.disconnected then σ
  else Sess.cleanup { σ with sstate := SState.disconnecting }

/-- Events driving the session machine: an AUTH_REQUEST arriving, the two
`await` resumptions inside `handleAuth`, and the teardown triggers
(client DISCONNECT, socket close, socket error, keepalive timeout, explicit
`close()`). -/
inductive SEv where
  | authMsg
  | authResult : Bool → Nat → SEv
  | createResult : Nat → SEv
  | clientDisconnect | sockClose | sockError | timeout | closeCall
  deriving DecidableEq

/-- One synchronous block of `VpnSession`, per event. -/
def Sess.step (σ : Sess) : SEv → Sess
  | SEv.authMsg =>
    -- handleAuth entry: `if (this.state !== CONNECTED) return;`
    if σ.sstate ≠ SState.connected then σ
    else { σ with sstate := SState.authenticating, pc := APc.awaitAuth }
  | SEv.authResult ok uid =>
    -- resumption of `await authService.authenticate(...)`
    if σ.pc ≠ APc.awaitAuth then σ
    else if ¬ ok then Sess.close { σ with pc := APc.idle }
    else
      match ({ σ with userId := some uid } : Sess).pool.allocate with
      | none => Sess.close { σ with userId := some uid, pc := APc.idle }
      | some (ip, p2) =>
        { σ with userId := some uid, assignedIP := some ip, pool := p2,
                 pc := APc.awaitCreate }
  | SEv.createResult dbId =>
    -- resumption of `await authService.createSession(...)`: sets
    -- AUTHENTICATED, sends AUTH_RESPONSE and CONFIG_PUSH, then sets ACTIVE.
    if σ.pc ≠ APc.awaitCreate then σ
    else { σ with sessionDbId := some dbId, sstate := SState.active,
                  pc := APc.idle }
  | SEv.clientDisconnect => Sess.close σ
  | SEv.sockClose => Sess.cleanup σ
  | SEv.sockError => Sess.cleanup σ
  | SEv.timeout => Sess.close σ
  | SEv.closeCall => Sess.close σ

/-- Run an event trace. -/
def Sess.run (σ : Sess) (evs : List SEv) : Sess :=
  evs.foldl Sess.step σ

/-- A freshly accepted session over a fresh `10.8.0.0/24` pool. -/
def initSess : Sess :=
  { sstate := SState.connected, pc := APc.idle, userId := none,
    assignedIP := none, sessionDbId := none,
    pool := freshPool (ipNum 10 8 0 0) 24,
    releaseCalls := 0, endSessionCalls := 0 }

/-- The assigned-IP placement facts of the session machine, as a decidable
check: no IP before allocation (in `Connected`, and in `Authenticating` while
`authenticate` is pending); an IP from the `createSession` suspension point
on and in `Active`; and a quiescent `Disconnected` session holds no live
lease. -/
def ipPlacementCheck (σ : Sess) : Bool :=
  (!(σ.sstate = SState.connected : Bool) || σ.assignedIP.isNone) &&
  (!(σ.pc = APc.awaitAuth : Bool) || σ.assignedIP.isNone) &&
  (!(σ.pc = APc.awaitCreate : Bool) || σ.assignedIP.isSome) &&
  (!(σ.sstate = SState.active : Bool) || σ.assignedIP.isSome) &&
  (!(σ.sstate = SState.disconnected ∧ σ.pc = APc.idle : Bool) ||
    match σ.assignedIP with
    | some ip => !(σ.pool.isInUse ip : Bool)
    | none => true)

/-- Inductive invariant of the session machine, tying the program counter of
the in-flight `handleAuth` to the session fields and to the teardown
counters. -/
def sessInv (σ : Sess) : Prop :=
  (σ.pc = APc.awaitAuth →
    σ.assignedIP = none ∧ σ.sessionDbId = none ∧ σ.releaseCalls = 0 ∧
      σ.endSessionCalls = 0 ∧
      (σ.sstate = SState.authenticating ∨ σ.sstate = SState.disconnected)) ∧
  (σ.pc = APc.awaitCreate →
    σ.assignedIP.isSome ∧ σ.sessionDbId = none ∧ σ.endSessionCalls = 0 ∧
      σ.releaseCalls ≤ 1 ∧
      (σ.sstate = SState.authenticating ∧ σ.releaseCalls = 0 ∨
        σ.sstate = SState.disconnected)) ∧
  (σ.pc = APc.idle →
    (σ.sstate = SState.connected ∧ σ.assignedIP = none ∧
        σ.sessionDbId = none ∧ σ.releaseCalls = 0 ∧ σ.endSessionCalls = 0) ∨
    (σ.sstate = SState.active ∧ σ.assignedIP.isSome ∧ σ.sessionDbId.isSome ∧
        σ.endSessionCalls = 0 ∧ σ.releaseCalls ≤ 1) ∨
    (σ.sstate = SState.disconnected ∧ σ.releaseCalls ≤ 2 ∧
        σ.endSessionCalls ≤ 1 ∧
        ∀ ip, σ.assignedIP = some ip → toKey ip ∉ σ.pool.usedIPs))

/-! ## Authentication service (authService.ts)

The relational store is embedded as in-memory tables; `bcrypt.compare` is an
external library call whose outcome the control flow consumes as a boolean,
so it is passed in as a function parameter.  The JWT signing call is
embedded as a record of the signed fields. -/

/-- A row of the `users` table, as selected by `authenticate`. -/
structure UserRow where
  id : Nat
  username : String
  passwordHash : String
  isActive : Bool
  maxConnections : Nat
  deriving DecidableEq

/-- A row of the `connection_logs` table, as inserted by `logEvent`. -/
structure LogRow where
  userId : Option Nat
  eventType : String
  platform : String
  clientIP : String
  details : Option String
  deriving DecidableEq

/-- The signed session token: `jwt.sign({userId, username, platform}, …)`. -/
structure SessionToken where
  userId : Nat
  username : String
  platform : String
  deriving DecidableEq

/-- The store surface `authenticate` touches: the `users` table, the per-user
rows of the `sessions` table (only the owning user id is consulted), and the
`connection_logs` table. -/
structure Db where
  users : List UserRow
  sessions : List Nat
  logs : List LogRow
  deriving DecidableEq

/-- `AuthService.logEvent`: `INSERT INTO connection_logs …`. -/
def logEvent (db : Db) (userId : Option Nat) (eventType platform clientIP : String)
    (details : Option String) : Db :=
  { db with logs := db.logs ++ [⟨userId, eventType, platform, clientIP, details⟩] }

/-- The result record of `AuthService.authenticate`. -/
structure AuthResult where
  success : Bool
  userId : Option Nat
  sessionToken : Option SessionToken
  errorMessage : Option String
  deriving DecidableEq

/-- `AuthService.authenticate(username, password, platform, clientIP)`.
`compare` stands for `bcrypt.compare`. -/
def authenticate (compare : String → String → Bool)
    (username password platform clientIP : String) (db : Db) :
    AuthResult × Db :=
  match db.users.find? (fun u => u.username = username) with
  | none =>
    (⟨false, none, none, some "Invalid credentials"⟩,
      logEvent db none "auth_fail" platform clientIP (some "User not found"))
  | some u =>
    if ¬ u.isActive then
      (⟨false, none, none, some "Account is disabled"⟩,
        logEvent db (some u.id) "auth_fail" platform clientIP
          (some "Account disabled"))
    else if ¬ compare password u.passwordHash then
      (⟨false, none, none, some "Invalid credentials"⟩,
        logEvent db (some u.id) "auth_fail" platform clientIP
          (some "Wrong password"))
    else if u.maxConnections ≤ db.sessions.countP (fun s => s = u.id) then
      (⟨false, none, none, some "Maximum connections reached"⟩,
        logEvent db (some u.id) "auth_fail" platform clientIP
          (some "Max connections reached"))
    else
      (⟨true, some u.id, some ⟨u.id, username, platform⟩, none⟩, db)

/-! ## Session registry and packet router
(sessionManager.ts in src/unnamed/part_006, packetRouter.ts)

`SessionManager` keeps `sessions : Map<string, VpnSession>` and
`sessionsByIP : Map<string, VpnSession>`.  The IP map is keyed by the dotted
string of the assigned address; as for the pool we key it by the 32-bit
value.  Delivery of a frame to a session is recorded by appending the frame
to that session's written-frames list (`VpnSession.send`). -/

/-- The registry's view of one `VpnSession`: its id, state, assigned IP, and
the wire frames written to its TLS socket. -/
structure RSession where
  sid : Nat
  sstate : SState
  assignedIP : Option Nat
  sentFrames : List (List Nat)
  deriving DecidableEq

/-- `VpnSession.sendPacket(data)`: drop unless `ACTIVE`, otherwise write one
framed DATA_PACKET. -/
def RSession.sendPacket (s : RSession) (pkt : List Nat) : RSession :=
  if s.sstate = SState.active then
    { s with sentFrames := s.sentFrames ++ [serializeDataPacket pkt] }
  else s

/-- The `SessionManager` state: the id-indexed sessions and the IP index. -/
structure Manager where
  sessions : List RSession
  sessionsByIP : List (Nat × Nat)
  deriving DecidableEq

/-- `sessions.get(id)`. -/
def Manager.getSession (m : Manager) (sid : Nat) : Option RSession :=
  m.sessions.find? (fun s => s.sid = sid)

/-- `sessionsByIP.get(ip)`. -/
def Manager.lookupIP (m : Manager) (ipKey : Nat) : Option Nat :=
  (m.sessionsByIP.find? (fun e => e.1 = ipKey)).map (fun e => e.2)

/-- Apply `f` to the session with the given id. -/
def Manager.updateSession (m : Manager) (sid : Nat) (f : RSession → RSession) :
    Manager :=
  { m with sessions := m.sessions.map (fun s => if s.sid = sid then f s else s) }

/-- `SessionManager.handlePacket(session, sourceIP, packet)`: bind the source
IP to the session in `sessionsByIP` if it is not bound yet (this is the only
place the IP index is ever populated), then emit the packet for the router.
The TUN write performed by the router on that emission is outside this
model. -/
def Manager.handlePacket (m : Manager) (sid : Nat) (srcKey : Nat) : Manager :=
  if (m.lookupIP srcKey).isNone then
    { m with sessionsByIP := m.sessionsByIP ++ [(srcKey, sid)] }
  else m

/-- `SessionManager.routePacket(destIP, packet)`: look the destination up in
the IP index; deliver through `sendPacket` when found. -/
def Manager.routePacket (m : Manager) (destKey : Nat) (pkt : List Nat) :
    Manager × Bool :=
  match m.lookupIP destKey with
  | some sid => (m.updateSession sid (fun s => s.sendPacket pkt), true)
  | none => (m, false)

/-- `PacketRouter.extractDestIP(packet)`: bytes 16..19 of the IPv4 header,
as the key of the dotted-quad string they print to. -/
def extractDestKey (pkt : List Nat) : Nat :=
  pkt.getD 16 0 * 16777216 + pkt.getD 17 0 * 65536 +
    pkt.getD 18 0 * 256 + pkt.getD 19 0

/-- `PacketRouter.routeToClient(packet)` with the router running: drop
datagrams shorter than an IPv4 header, otherwise route by destination. -/
def routeToClient (m : Manager) (pkt : List Nat) : Manager :=
  if pkt.length < 20 then m
  else (m.routePacket (extractDestKey pkt) pkt).1

/-- The manager-visible effect of a session completing `handleAuth`
successfully (the Authenticated → Active transition): the session's own
fields change, and nothing else.  `SessionManager.createSession` subscribes
only to the `packet`, `close` and `error` events, and `handleAuth` emits
none of them, so the transition cannot touch `sessionsByIP`. -/
def Manager.sessionEnterActive (m : Manager) (sid ip : Nat) : Manager :=
  m.updateSession sid
    (fun s => { s with sstate := SState.active, assignedIP := some ip })

/-! ## Concrete fixtures used by witnesses and counterexamples -/

/-- The numeric value of `10.8.0.2`, the first client address of
`10.8.0.0/24`. -/
def addr10802 : Nat := ipNum 10 8 0 2

/-- A minimal (20-byte) IPv4 datagram whose destination field (bytes 16..19)
is `10.8.0.2`. -/
def pktTo10802 : List Nat :=
  [69, 0, 0, 20, 0, 0, 0, 0, 64, 6, 0, 0, 93, 184, 216, 34, 10, 8, 0, 2]

/-- A registry holding one freshly created session (id 1), before
authentication. -/
def mgrFresh : Manager :=
  { sessions := [⟨1, SState.connected, none, []⟩], sessionsByIP := [] }

/-- The registry after session 1 completed `handleAuth` and entered `Active`
with assigned IP `10.8.0.2`, having emitted no data packet yet. -/
def mgrActiveUnbound : Manager :=
  mgrFresh.sessionEnterActive 1 addr10802

/-- A registry where session 1 is `Active` with `10.8.0.2` and the IP index
already binds that address to it (the state after its first client
packet). -/
def mgrActiveBound : Manager :=
  { sessions := [⟨1, SState.active, some addr10802, []⟩],
    sessionsByIP := [(addr10802, 1)] }

/-- A database with one enabled user, no live sessions, no log rows. -/
def dbTestuser : Db :=
  { users := [⟨1, "testuser", "hashed-test123", true, 3⟩],
    sessions := [], logs := [] }

/-- A stand-in for `bcrypt.compare` that accepts exactly the password
`"test123"` against the fixture's stored verifier. -/
def cmpTest (password hash : String) : Bool :=
  password = "test123" && hash = "hashed-test123"

/-- The 5-byte header declaring payload length `0xFFFFFFFF` on a DATA_PACKET
frame. -/
def hdrFFFF : List Nat := [16, 255, 255, 255, 255]

/-- The addresses `toKey (baseIP + i)` for `i` in `[lo, maxHosts]`. -/
def poolRange (b M lo : Nat) : Finset Nat :=
  (Finset.Icc lo M).image (fun i => toKey (b + i))

/-- The safety condition of claim C9 on an instrumented pool state: the
network address and the broadcast address are never leased, the gateway is
never held by a client, and clients never hold more than `capacity - 1`
addresses. -/
def poolSafe (st : PoolSt) : Prop :=
  toKey st.pool.baseIP ∉ st.pool.usedIPs ∧
    toKey (st.pool.baseIP + st.pool.maxHosts + 1) ∉ st.pool.usedIPs ∧
    st.pool.getGateway ∉ st.clientHeld ∧
    st.clientHeld.card ≤ st.pool.maxHosts - 1

/-- Inductive invariant for C9: the CIDR parameters are those of the fresh
pool, every leased address lies in the host range `[1, maxHosts]`, and every
client-held address lies in `[2, maxHosts]`. -/
def poolInv (b M : Nat) (st : PoolSt) : Prop :=
  st.pool.baseIP = b ∧ st.pool.maxHosts = M ∧
    st.pool.usedIPs ⊆ poolRange b M 1 ∧
    st.clientHeld ⊆ poolRange b M 2

/-! ## Codec lemmas -/

theorem extractMessage_of_incomplete (b : List Nat)
    (h : b.length < 5 + readUInt32BE b 1) : extractMessage b = (none, b) := by
  unfold extractMessage
  by_cases h5 : b.length < 5
  · simp [h5]
  · have : ((b.length : Int) < getExpectedLength b) := by
      unfold getExpectedLength
      simp only [h5, if_false]
      exact_mod_cast h
    simp [h5, this]

theorem extractMessage_of_complete (b : List Nat)
    (h : 5 + readUInt32BE b 1 ≤ b.length) :
    extractMessage b =
      (some ⟨b.getD 0 0, readUInt32BE b 1, (b.drop 5).take (readUInt32BE b 1)⟩,
        b.drop (5 + readUInt32BE b 1)) := by
  have h5 : ¬ b.length < 5 := by omega
  have hlen : ¬ b.length < 5 + readUInt32BE b 1 := by omega
  have hexp : getExpectedLength b = ((5 + readUInt32BE b 1 : Nat) : Int) := by
    unfold getExpectedLength; simp [h5]
  have hne : ¬ (getExpectedLength b = -1 ∨
      (b.length : Int) < getExpectedLength b) := by
    rw [hexp]
    push_neg
    constructor
    · omega
    · exact_mod_cast h
  unfold extractMessage deserialize
  simp only [h5, if_false, hne, if_false, hlen]

theorem extractMessage_none_eq {b b2 : List Nat}
    (h : extractMessage b = (none, b2)) : b2 = b := by
  unfold extractMessage at h
  by_cases h5 : b.length < 5
  · simp [h5] at h; exact h.symm
  · simp only [h5, if_false] at h
    split at h
    · exact (Prod.mk.injEq _ _ _ _ ▸ h).2.symm
    · unfold deserialize at h
      simp only [h5, if_false] at h
      split at h
      · simp at h
      · exact (Prod.mk.injEq _ _ _ _ ▸ h).2.symm

theorem extractMessage_some_spec {b b2 : List Nat} {m : VpnMessage}
    (h : extractMessage b = (some m, b2)) :
    5 + m.length ≤ b.length ∧ m.length = readUInt32BE b 1 ∧
      m.type = b.getD 0 0 ∧ m.payload = (b.drop 5).take m.length ∧
      b2 = b.drop (5 + m.length) := by
  by_cases hc : 5 + readUInt32BE b 1 ≤ b.length
  · rw [extractMessage_of_complete b hc] at h
    obtain ⟨hm, hb⟩ := Prod.mk.injEq _ _ _ _ ▸ h
    obtain rfl := Option.some.inj hm
    exact ⟨hc, rfl, rfl, rfl, hb.symm⟩
  · rw [extractMessage_of_incomplete b (by omega)] at h
    simp at h

theorem extractMessage_some_length {b b2 : List Nat} {m : VpnMessage}
    (h : extractMessage b = (some m, b2)) : b2.length < b.length := by
  obtain ⟨hle, _, _, _, hb2⟩ := extractMessage_some_spec h
  subst hb2
  simp only [List.length_drop]
  omega

theorem extractAllAux_congr :
    ∀ (n : Nat) (b : List Nat) (k : Nat), b.length ≤ n → b.length ≤ k →
      extractAllAux n b = extractAllAux k b := by
  intro n
  induction n with
  | zero =>
    intro b k hn _
    have hb : b = [] := List.eq_nil_of_length_eq_zero (by omega)
    subst hb
    have hm : extractMessage [] = (none, []) :=
      extractMessage_of_incomplete [] (by simp [readUInt32BE])
    cases k with
    | zero => rfl
    | succ k => simp [extractAllAux, hm]
  | succ n ih =>
    intro b k hn hk
    cases k with
    | zero =>
      have hb : b = [] := List.eq_nil_of_length_eq_zero (by omega)
      subst hb
      have hm : extractMessage [] = (none, []) :=
        extractMessage_of_incomplete [] (by simp [readUInt32BE])
      simp [extractAllAux, hm]
    | succ k =>
      simp only [extractAllAux]
      cases hm : extractMessage b with
      | mk o b2 =>
        cases o with
        | none => rfl
        | some msg =>
          have hlt : b2.length < b.length := extractMessage_some_length hm
          show (msg :: (extractAllAux n b2).1, (extractAllAux n b2).2) =
            (msg :: (extractAllAux k b2).1, (extractAllAux k b2).2)
          rw [ih b2 k (by omega) (by omega)]

theorem extractAll_of_none {b b2 : List Nat}
    (h : extractMessage b = (none, b2)) : extractAllMessages b = ([], b) := by
  unfold extractAllMessages
  cases hl : b.length with
  | zero => rfl
  | succ n => simp [extractAllAux, h]

theorem extractAll_of_some {b b2 : List Nat} {m : VpnMessage}
    (h : extractMessage b = (some m, b2)) :
    extractAllMessages b =
      (m :: (extractAllMessages b2).1, (extractAllMessages b2).2) := by
  have hlt : b2.length < b.length := extractMessage_some_length h
  unfold extractAllMessages
  cases hl : b.length with
  | zero => omega
  | succ n =>
    simp only [extractAllAux, h]
    rw [extractAllAux_congr n b2 b2.length (by omega) (by omega)]

theorem readUInt32BE_append (a b : List Nat) (h : 5 ≤ a.length) :
    readUInt32BE (a ++ b) 1 = readUInt32BE a 1 := by
  unfold readUInt32BE
  rw [List.getD_append a b 0 1 (by omega), List.getD_append a b 0 2 (by omega),
    List.getD_append a b 0 3 (by omega), List.getD_append a b 0 4 (by omega)]

theorem extractMessage_some_append {a a2 : List Nat} {m : VpnMessage}
    (b : List Nat) (h : extractMessage a = (some m, a2)) :
    extractMessage (a ++ b) = (some m, a2 ++ b) := by
  obtain ⟨hle, hlen, htype, hpay, ha2⟩ := extractMessage_some_spec h
  have h5 : 5 ≤ a.length := by omega
  have hread : readUInt32BE (a ++ b) 1 = readUInt32BE a 1 :=
    readUInt32BE_append a b h5
  have hcomp : 5 + readUInt32BE (a ++ b) 1 ≤ (a ++ b).length := by
    rw [hread, List.length_append]; omega
  rw [extractMessage_of_complete (a ++ b) hcomp]
  have hget0 : (a ++ b).getD 0 0 = a.getD 0 0 :=
    List.getD_append a b 0 0 (by omega)
  have hdrop5 : (a ++ b).drop 5 = a.drop 5 ++ b :=
    List.drop_append_of_le_length h5
  have hpay2 : ((a ++ b).drop 5).take (readUInt32BE (a ++ b) 1) =
      (a.drop 5).take m.length := by
    rw [hdrop5, hread, ← hlen]
    exact List.take_append_of_le_length (by simp [List.length_drop]; omega)
  have hrest : (a ++ b).drop (5 + readUInt32BE (a ++ b) 1) = a2 ++ b := by
    rw [hread, ← hlen, ha2]
    exact List.drop_append_of_le_length hle
  rw [hrest, hget0, hpay2]
  have hmeq : (⟨a.getD 0 0, readUInt32BE (a ++ b) 1,
      (a.drop 5).take m.length⟩ : VpnMessage) = m := by
    rw [hread, ← hlen, ← htype, ← hpay]
  rw [hmeq]

theorem extractMessage_nil : extractMessage ([] : List Nat) = (none, []) :=
  extractMessage_of_incomplete [] (by simp [readUInt32BE])

theorem extractAll_append (a b : List Nat) :
    extractAllMessages (a ++ b) =
      ((extractAllMessages a).1 ++
        (extractAllMessages ((extractAllMessages a).2 ++ b)).1,
       (extractAllMessages ((extractAllMessages a).2 ++ b)).2) := by
  have H : ∀ (n : Nat) (a : List Nat), a.length ≤ n → ∀ b : List Nat,
      extractAllMessages (a ++ b) =
        ((extractAllMessages a).1 ++
          (extractAllMessages ((extractAllMessages a).2 ++ b)).1,
         (extractAllMessages ((extractAllMessages a).2 ++ b)).2) := by
    intro n
    induction n with
    | zero =>
      intro a ha b
      have hnil : a = [] := List.eq_nil_of_length_eq_zero (by omega)
      subst hnil
      rw [extractAll_of_none extractMessage_nil]
      simp
    | succ n ih =>
      intro a ha b
      cases hm : extractMessage a with
      | mk o a2 =>
        cases o with
        | none =>
          obtain rfl := extractMessage_none_eq hm
          rw [extractAll_of_none hm]
          simp
        | some m =>
          have hlt : a2.length < a.length := extractMessage_some_length hm
          have hm2 : extractMessage (a ++ b) = (some m, a2 ++ b) :=
            extractMessage_some_append b hm
          rw [extractAll_of_some hm, extractAll_of_some hm2,
            ih a2 (by omega) b]
          simp
  exact H a.length a (le_refl _) b

theorem extractAll_residual (b : List Nat) :
    extractMessage (extractAllMessages b).2 = (none, (extractAllMessages b).2) := by
  have H : ∀ (n : Nat) (b : List Nat), b.length ≤ n →
      extractMessage (extractAllMessages b).2 =
        (none, (extractAllMessages b).2) := by
    intro n
    induction n with
    | zero =>
      intro b hb
      have hnil : b = [] := List.eq_nil_of_length_eq_zero (by omega)
      subst hnil
      rw [extractAll_of_none extractMessage_nil]
      exact extractMessage_nil
    | succ n ih =>
      intro b hb
      cases hm : extractMessage b with
      | mk o b2 =>
        cases o with
        | none =>
          obtain rfl := extractMessage_none_eq hm
          rw [extractAll_of_none hm]
          exact hm
        | some m =>
          have hlt : b2.length < b.length := extractMessage_some_length hm
          rw [extractAll_of_some hm]
          exact ih b2 (by omega)
  exact H b.length b (le_refl _)

theorem processFragments_spec (fs : List (List Nat)) :
    ∀ buf : List Nat, extractMessage buf = (none, buf) →
      processFragments fs buf = extractAllMessages (buf ++ fs.flatten) := by
  induction fs with
  | nil =>
    intro buf hres
    simp only [processFragments, List.flatten_nil, List.append_nil]
    exact (extractAll_of_none hres).symm
  | cons f fs ih =>
    intro buf hres
    have hstep := ih (extractAllMessages (buf ++ f)).2 (extractAll_residual _)
    simp only [processFragments, hstep, List.flatten_cons]
    rw [← List.append_assoc, extractAll_append (buf ++ f) fs.flatten]

/-! ## Claim C4: segmentation invariance of the streaming buffer -/

/-- C4: for every sequence of byte fragments, appending them one at a time to
the streaming `MessageBuffer` and draining with `extractAllMessages` after
each append yields exactly the complete messages of the concatenation, in
order, with the incomplete tail retained as the final residual — extraction
is invariant under how the stream is split into TCP segments. -/
theorem c4_fragmentation_invariant (fs : List (List Nat)) :
    processFragments fs [] = extractAllMessages fs.flatten := by
  simpa using processFragments_spec fs [] extractMessage_nil

/-! ## Claim C5: decode is a left inverse of encode -/

theorem readUInt32BE_cons (x b1 b2 b3 b4 : Nat) (rest : List Nat) :
    readUInt32BE (x :: b1 :: b2 :: b3 :: b4 :: rest) 1 =
      b1 * 16777216 + b2 * 65536 + b3 * 256 + b4 := rfl

theorem readUInt32BE_serialize (t : Nat) (p : List Nat)
    (hp : p.length < 4294967296) :
    readUInt32BE (serialize t p) 1 = p.length := by
  have hs : serialize t p =
      t % 256 :: p.length / 16777216 % 256 :: p.length / 65536 % 256 ::
        p.length / 256 % 256 :: p.length % 256 :: p := by
    simp [serialize, be32]
  rw [hs, readUInt32BE_cons]
  omega

theorem serialize_length (t : Nat) (p : List Nat) :
    (serialize t p).length = 5 + p.length := by
  simp [serialize, be32]
  omega

/-- C5: for every type byte `t` and payload `p` with `|p| < 2^32`,
deserializing `serialize(t, p)` yields the message `⟨t, |p|, p⟩`, and one
`extractMessage` step on `serialize(t, p)` followed by any further bytes
consumes exactly `5 + |p|` bytes, leaving exactly those further bytes. -/
theorem c5_decode_left_inverse_of_encode (t : Nat) (p rest : List Nat)
    (ht : t < 256) (hp : p.length < 4294967296) :
    (serialize t p).length = 5 + p.length ∧
      deserialize (serialize t p) = some ⟨t, p.length, p⟩ ∧
      extractMessage (serialize t p ++ rest) = (some ⟨t, p.length, p⟩, rest) := by
  have hlen : (serialize t p).length = 5 + p.length := serialize_length t p
  have hread : readUInt32BE (serialize t p) 1 = p.length :=
    readUInt32BE_serialize t p hp
  have hget0 : (serialize t p).getD 0 0 = t := by
    simp [serialize, Nat.mod_eq_of_lt ht]
  have hdrop5 : (serialize t p).drop 5 = p := by
    simp [serialize, be32]
  refine ⟨hlen, ?_, ?_⟩
  · unfold deserialize
    rw [hread, hlen, hget0, hdrop5]
    simp [List.take_length]
  · have hm : extractMessage (serialize t p) = (some ⟨t, p.length, p⟩, []) := by
      rw [extractMessage_of_complete (serialize t p) (by omega)]
      rw [hread, hget0, hdrop5, ← hlen, List.drop_length]
      simp [List.take_length]
    have := extractMessage_some_append rest hm
    simpa using this

/-- Witness for C5 at `t = 0x10`, `p = [171, 205]`, trailing bytes `[7]`. -/
theorem c5_witness :
    16 < 256 ∧ ([171, 205] : List Nat).length < 4294967296 ∧
      ((serialize 16 [171, 205]).length = 5 + ([171, 205] : List Nat).length ∧
        deserialize (serialize 16 [171, 205]) = some ⟨16, 2, [171, 205]⟩ ∧
        extractMessage (serialize 16 [171, 205] ++ [7]) =
          (some ⟨16, 2, [171, 205]⟩, [7])) :=
  ⟨by decide, by decide,
    c5_decode_left_inverse_of_encode 16 [171, 205] [7] (by decide) (by decide)⟩

/-! ## Claim C3: a declared length of 0xFFFFFFFF

The source has no maximum-length check: `getExpectedLength` returns
`5 + length` for any declared length, and `extractMessage` compares it only
against the bytes buffered so far.  A header declaring `0xFFFFFFFF` is
therefore classified as an incomplete message and the buffer waits for more
bytes; no framing error exists in the codec's return type, and the session
is not torn down. -/

/-- Counterexample to C3: for the 5-byte buffer declaring payload length
`0xFFFFFFFF` (and for that buffer with further bytes appended), the decoder
extracts nothing and retains the whole buffer as residual, i.e. it treats
the input as incomplete and keeps waiting — it does not report an error,
contradicting the claim that such input is rejected as a fatal framing
error. -/
theorem c3_counterexample :
    getExpectedLength hdrFFFF = 4294967300 ∧
      extractMessage hdrFFFF = (none, hdrFFFF) ∧
      extractAllMessages hdrFFFF = ([], hdrFFFF) ∧
      extractAllMessages (hdrFFFF ++ [0, 0, 0]) = ([], hdrFFFF ++ [0, 0, 0]) := by
  refine ⟨by decide, ?_, ?_, ?_⟩ <;> decide

/-- C3 as amended: a buffer whose declared payload length exceeds the bytes
available is always classified as incomplete (`extractMessage` returns no
message and leaves the buffer untouched), whatever the declared length; the
codec enforces no maximum. -/
theorem c3_amended_oversized_length_waits (b : List Nat)
    (h : b.length < 5 + readUInt32BE b 1) :
    extractMessage b = (none, b) :=
  extractMessage_of_incomplete b h

/-- Witness for the amended C3 at the `0xFFFFFFFF` header. -/
theorem c3_amended_witness :
    hdrFFFF.length < 5 + readUInt32BE hdrFFFF 1 ∧
      extractMessage hdrFFFF = (none, hdrFFFF) :=
  ⟨by decide, c3_amended_oversized_length_waits hdrFFFF (by decide)⟩

/-! ## IP pool lemmas -/

theorem allocLoop_some_spec (p : IPPool) :
    ∀ (fuel i ip : Nat), allocLoop p i fuel = some ip →
      ∃ j, i ≤ j ∧ j ≤ p.maxHosts ∧ ip = p.baseIP + j ∧
        toKey (p.baseIP + j) ∉ p.usedIPs ∧
        ∀ k, i ≤ k → k < j → toKey (p.baseIP + k) ∈ p.usedIPs := by
  intro fuel
  induction fuel with
  | zero => intro i ip h; exact absurd h (by simp [allocLoop])
  | succ fuel ih =>
    intro i ip h
    simp only [allocLoop] at h
    by_cases hle : i ≤ p.maxHosts
    · simp only [hle, if_true] at h
      by_cases hmem : toKey (p.baseIP + i) ∈ p.usedIPs
      · simp only [hmem, if_true] at h
        obtain ⟨j, hij, hj, hip, hfree, hleast⟩ := ih (i + 1) ip h
        refine ⟨j, by omega, hj, hip, hfree, fun k hik hkj => ?_⟩
        rcases Nat.eq_or_lt_of_le hik with heq | hlt
        · exact heq ▸ hmem
        · exact hleast k (by omega) hkj
      · simp only [hmem, if_false, Option.some.injEq] at h
        refine ⟨i, le_rfl, hle, h.symm, hmem, fun k hik hki => ?_⟩
        omega
    · simp [hle] at h

theorem allocLoop_none_iff (p : IPPool) :
    ∀ (fuel i : Nat), p.maxHosts + 1 ≤ i + fuel →
      (allocLoop p i fuel = none ↔
        ∀ j, i ≤ j → j ≤ p.maxHosts → toKey (p.baseIP + j) ∈ p.usedIPs) := by
  intro fuel
  induction fuel with
  | zero =>
    intro i hi
    constructor
    · intro _ j hij hj; exact absurd hj (by omega)
    · intro _; rfl
  | succ fuel ih =>
    intro i hi
    simp only [allocLoop]
    by_cases hle : i ≤ p.maxHosts
    · simp only [hle, if_true]
      by_cases hmem : toKey (p.baseIP + i) ∈ p.usedIPs
      · simp only [hmem, if_true]
        rw [ih (i + 1) (by omega)]
        constructor
        · intro h j hij hj
          rcases Nat.eq_or_lt_of_le hij with heq | hlt
          · exact heq ▸ hmem
          · exact h j (by omega) hj
        · intro h j hij hj
          exact h j (by omega) hj
      · simp only [hmem, if_false]
        constructor
        · intro h; exact absurd h (by simp)
        · intro h; exact absurd (h i le_rfl hle) hmem
    · simp only [hle, if_false]
      constructor
      · intro _ j hij hj; exact absurd hj (by omega)
      · intro _; trivial

theorem allocate_some_spec {p p2 : IPPool} {ip : Nat}
    (h : p.allocate = some (ip, p2)) :
    ∃ j, 2 ≤ j ∧ j ≤ p.maxHosts ∧ ip = p.baseIP + j ∧
      toKey (p.baseIP + j) ∉ p.usedIPs ∧
      (∀ k, 2 ≤ k → k < j → toKey (p.baseIP + k) ∈ p.usedIPs) ∧
      p2 = { p with usedIPs := insert (toKey ip) p.usedIPs } := by
  unfold IPPool.allocate at h
  cases hs : allocLoop p 2 p.maxHosts with
  | none => rw [hs] at h; exact absurd h (by simp)
  | some ip2 =>
    rw [hs] at h
    simp only [Option.some.injEq, Prod.mk.injEq] at h
    obtain ⟨rfl, rfl⟩ := h
    obtain ⟨j, hij, hj, hip, hfree, hleast⟩ := allocLoop_some_spec p _ 2 _ hs
    exact ⟨j, hij, hj, hip, hfree, hleast, rfl⟩

theorem allocate_none_iff (p : IPPool) :
    p.allocate = none ↔
      ∀ j, 2 ≤ j → j ≤ p.maxHosts → toKey (p.baseIP + j) ∈ p.usedIPs := by
  unfold IPPool.allocate
  rw [← allocLoop_none_iff p p.maxHosts 2 (by omega)]
  cases hs : allocLoop p 2 p.maxHosts <;> simp

/-! ## Claim C2: allocation order and exhaustion -/

/-- C2: `allocate()` scans deterministically from `base+2` up to
`base+capacity` and returns the lowest unleased host address (recording it
as leased); it returns nothing exactly when every address of that range is
leased; and the first allocation on a fresh pool over `10.8.0.0/24` — whose
capacity is `2^(32-24) - 2 = 254` — yields `10.8.0.2`. -/
theorem c2_allocate_lowest_free (p : IPPool) :
    (∀ ip p2, p.allocate = some (ip, p2) →
      ∃ j, 2 ≤ j ∧ j ≤ p.maxHosts ∧ ip = p.baseIP + j ∧
        toKey (p.baseIP + j) ∉ p.usedIPs ∧
        (∀ k, 2 ≤ k → k < j → toKey (p.baseIP + k) ∈ p.usedIPs) ∧
        p2 = { p with usedIPs := insert (toKey ip) p.usedIPs }) ∧
    (p.allocate = none ↔
      ∀ j, 2 ≤ j → j ≤ p.maxHosts → toKey (p.baseIP + j) ∈ p.usedIPs) ∧
    (freshPool (ipNum 10 8 0 0) 24).maxHosts = 254 ∧
    ((freshPool (ipNum 10 8 0 0) 24).allocate).map Prod.fst = some addr10802 ∧
    numberToIP addr10802 = (10, 8, 0, 2) := by
  refine ⟨fun ip p2 h => allocate_some_spec h, allocate_none_iff p,
    by decide, by decide, by decide⟩

/-- Witness for C2, applying the first conjunct at the fresh `10.8.0.0/24`
pool and its concrete allocation result. -/
theorem c2_witness :
    ∃ j, 2 ≤ j ∧ j ≤ (freshPool (ipNum 10 8 0 0) 24).maxHosts ∧
      addr10802 = (freshPool (ipNum 10 8 0 0) 24).baseIP + j ∧
      toKey ((freshPool (ipNum 10 8 0 0) 24).baseIP + j) ∉
        (freshPool (ipNum 10 8 0 0) 24).usedIPs ∧
      (∀ k, 2 ≤ k → k < j →
        toKey ((freshPool (ipNum 10 8 0 0) 24).baseIP + k) ∈
          (freshPool (ipNum 10 8 0 0) 24).usedIPs) ∧
      ({ freshPool (ipNum 10 8 0 0) 24 with
          usedIPs := insert (toKey addr10802)
            (freshPool (ipNum 10 8 0 0) 24).usedIPs } : IPPool) =
        { freshPool (ipNum 10 8 0 0) 24 with
          usedIPs := insert (toKey addr10802)
            (freshPool (ipNum 10 8 0 0) 24).usedIPs } :=
  match h : (c2_allocate_lowest_free (freshPool (ipNum 10 8 0 0) 24)).1
      addr10802
      { freshPool (ipNum 10 8 0 0) 24 with
        usedIPs := insert (toKey addr10802)
          (freshPool (ipNum 10 8 0 0) 24).usedIPs } (by decide) with
  | ⟨j, h2, h3, h4, h5, h6, _⟩ => ⟨j, h2, h3, h4, h5, h6, rfl⟩

/-! ## Claim C9: pool safety under arbitrary interleavings -/

theorem poolInv_applyOp {b M : Nat} {st : PoolSt} (h : poolInv b M st)
    (op : PoolOp) : poolInv b M (applyOp st op) := by
  obtain ⟨hb, hM, hused, hheld⟩ := h
  cases op with
  | alloc =>
    simp only [applyOp]
    cases hs : st.pool.allocate with
    | none => exact ⟨hb, hM, hused, hheld⟩
    | some pr =>
      obtain ⟨ip, p2⟩ := pr
      obtain ⟨j, h2j, hjM, hip, _, _, hp2⟩ := allocate_some_spec hs
      subst hp2
      refine ⟨hb, hM, ?_, ?_⟩
      · intro x hx
        rcases Finset.mem_insert.mp hx with hx1 | hx2
        · subst hx1
          exact Finset.mem_image.mpr
            ⟨j, Finset.mem_Icc.mpr ⟨by omega, hM ▸ hjM⟩, by rw [hip, hb]⟩
        · exact hused hx2
      · intro x hx
        rcases Finset.mem_insert.mp hx with hx1 | hx2
        · subst hx1
          exact Finset.mem_image.mpr
            ⟨j, Finset.mem_Icc.mpr ⟨h2j, hM ▸ hjM⟩, by rw [hip, hb]⟩
        · exact hheld hx2
  | release ip =>
    simp only [applyOp, IPPool.release]
    exact ⟨hb, hM, Finset.Subset.trans (Finset.erase_subset _ _) hused,
      Finset.Subset.trans (Finset.erase_subset _ _) hheld⟩

theorem poolInv_applyOps {b M : Nat} (ops : List PoolOp) :
    ∀ st : PoolSt, poolInv b M st → poolInv b M (applyOps st ops) := by
  induction ops with
  | nil => intro st h; exact h
  | cons op ops ih =>
    intro st h
    exact ih (applyOp st op) (poolInv_applyOp h op)

theorem poolInv_safe {b M : Nat} {st : PoolSt}
    (hwf : b + M + 1 < 4294967296) (h : poolInv b M st) : poolSafe st := by
  obtain ⟨hb, hM, hused, hheld⟩ := h
  have hid : ∀ i, i ≤ M + 1 → toKey (b + i) = b + i := by
    intro i hi
    exact Nat.mod_eq_of_lt (by omega)
  refine ⟨?_, ?_, ?_, ?_⟩
  · intro hmem
    obtain ⟨i, hiIcc, hi⟩ := Finset.mem_image.mp (hused hmem)
    obtain ⟨h1i, hiM⟩ := Finset.mem_Icc.mp hiIcc
    rw [hb] at hi
    rw [hid i (by omega)] at hi
    have : toKey b = b := by
      unfold toKey; exact Nat.mod_eq_of_lt (by omega)
    rw [this] at hi
    omega
  · intro hmem
    obtain ⟨i, hiIcc, hi⟩ := Finset.mem_image.mp (hused hmem)
    obtain ⟨h1i, hiM⟩ := Finset.mem_Icc.mp hiIcc
    rw [hid i (by omega)] at hi
    have hbm : toKey (st.pool.baseIP + st.pool.maxHosts + 1) = b + M + 1 := by
      rw [hb, hM]; unfold toKey; exact Nat.mod_eq_of_lt (by omega)
    rw [hbm] at hi
    omega
  · intro hmem
    obtain ⟨i, hiIcc, hi⟩ := Finset.mem_image.mp (hheld hmem)
    obtain ⟨h2i, hiM⟩ := Finset.mem_Icc.mp hiIcc
    rw [hid i (by omega)] at hi
    have hgw : st.pool.getGateway = b + 1 := by
      unfold IPPool.getGateway toKey
      rw [hb]; exact Nat.mod_eq_of_lt (by omega)
    rw [hgw] at hi
    omega
  · calc st.clientHeld.card ≤ (poolRange b M 2).card :=
          Finset.card_le_card hheld
      _ ≤ (Finset.Icc 2 M).card := Finset.card_image_le
      _ = M + 1 - 2 := Nat.card_Icc 2 M
      _ ≤ st.pool.maxHosts - 1 := by rw [hM]; omega

/-- C9: after any finite interleaving of `allocate()` and `release(addr)`
calls on a pool built from a CIDR (gateway pre-reserved at construction,
capacity at least one host), the lease set never contains the network or
broadcast address, the gateway is never held by a client, and the number of
client-held leases never exceeds `capacity - 1`. -/
theorem c9_pool_never_leases_reserved (subnetNum bits : Nat)
    (ops : List PoolOp)
    (hwf : subnetNum % 4294967296 + (2 ^ (32 - bits) - 2) + 1 < 4294967296)
    (hcap : 1 ≤ 2 ^ (32 - bits) - 2) :
    poolSafe (applyOps (freshPoolSt subnetNum bits) ops) := by
  have h0 : poolInv (subnetNum % 4294967296) (2 ^ (32 - bits) - 2)
      (freshPoolSt subnetNum bits) := by
    refine ⟨rfl, rfl, ?_, ?_⟩
    · intro x hx
      simp only [freshPoolSt, freshPool, Finset.mem_singleton] at hx
      subst hx
      exact Finset.mem_image.mpr
        ⟨1, Finset.mem_Icc.mpr ⟨le_rfl, hcap⟩, rfl⟩
    · intro x hx
      simp [freshPoolSt] at hx
  exact poolInv_safe hwf (poolInv_applyOps ops _ h0)

/-- Witness for C9: a concrete interleaving on the fresh `10.8.0.0/24`
pool — two allocations, a release of `10.8.0.2`, and another allocation. -/
theorem c9_witness :
    poolSafe (applyOps (freshPoolSt (ipNum 10 8 0 0) 24)
      [PoolOp.alloc, PoolOp.alloc, PoolOp.release addr10802, PoolOp.alloc]) :=
  c9_pool_never_leases_reserved (ipNum 10 8 0 0) 24
    [PoolOp.alloc, PoolOp.alloc, PoolOp.release addr10802, PoolOp.alloc]
    (by decide) (by decide)

/-! ## Claim C7: event logging in authenticate

In the source, `authenticate` calls `logEvent` on each failure path but not
on the success path: the `connect` row is written later, by
`createSession`.  The claim that every outcome of `authenticate` appends a
row is therefore false on the success outcome. -/

/-- Counterexample to C7: a successful `authenticate` call (enabled user,
matching password, zero live sessions against a cap of 3) returns success
and appends no row at all to `connection_logs`. -/
theorem c7_counterexample :
    (authenticate cmpTest "testuser" "test123" "macos" "203.0.113.9"
      dbTestuser).1.success = true ∧
    (authenticate cmpTest "testuser" "test123" "macos" "203.0.113.9"
      dbTestuser).2.logs = [] := by
  constructor <;> rfl

/-- C7 as amended: each failure outcome of `authenticate` (user absent,
account disabled, wrong password, concurrency cap reached) appends exactly
one `auth_fail` row to the connection-event log, while the success outcome
appends none (its `connect` row is written later by `createSession`). -/
theorem c7_amended_only_failures_log (compare : String → String → Bool)
    (username password platform clientIP : String) (db : Db) :
    (authenticate compare username password platform clientIP db).2.logs.length =
      db.logs.length +
        (if (authenticate compare username password platform clientIP db).1.success
          then 0 else 1) ∧
    (authenticate compare username password platform clientIP db).2.logs.take
      db.logs.length = db.logs ∧
    ((authenticate compare username password platform clientIP db).2.logs.drop
      db.logs.length).all (fun row => row.eventType == "auth_fail") = true := by
  unfold authenticate
  cases hf : db.users.find? (fun u => u.username = username) with
  | none =>
    refine ⟨by simp [logEvent], ?_, ?_⟩
    · simp [logEvent, List.take_left]
    · simp [logEvent, List.drop_left]
  | some u =>
    dsimp only
    split_ifs with h1 h2 h3 <;>
      refine ⟨?_, ?_, ?_⟩ <;>
      simp_all [logEvent, List.take_left, List.drop_left, List.take_length,
        List.drop_length]

/-! ## Session machine lemmas -/

theorem close_eq_cleanup (σ : Sess) : Sess.close σ = Sess.cleanup σ := by
  unfold Sess.close Sess.cleanup
  by_cases hd : σ.sstate = SState.disconnected
  · simp [hd]
  · simp [hd]

theorem sessInv_cleanup {σ : Sess} (h : sessInv σ) :
    sessInv (Sess.cleanup σ) := by
  obtain ⟨h1, h2, h3⟩ := h
  by_cases hd : σ.sstate = SState.disconnected
  · rw [Sess.cleanup, if_pos hd]; exact ⟨h1, h2, h3⟩
  · rw [Sess.cleanup, if_neg hd]
    refine ⟨?_, ?_, ?_⟩
    · intro hpc
      obtain ⟨hip, hdb, hrel, hend, _⟩ := h1 hpc
      simp_all
    · intro hpc
      obtain ⟨hip, hdb, hend, hrel, hst⟩ := h2 hpc
      rcases hst with ⟨hauth, hrel0⟩ | hdisc
      · obtain ⟨ip, hips⟩ := Option.isSome_iff_exists.mp hip
        simp_all
      · exact absurd hdisc hd
    · intro hpc
      rcases h3 hpc with ⟨hst, hip, hdb, hrel, hend⟩ |
          ⟨hst, hip, hdb, hend, hrel⟩ | ⟨hst, _⟩
      · refine Or.inr (Or.inr ⟨rfl, by simp [hip, hrel], by simp [hdb, hend],
          ?_⟩)
        intro ip hips
        simp only [hip] at hips
        exact absurd hips (by simp)
      · obtain ⟨ip0, hips0⟩ := Option.isSome_iff_exists.mp hip
        obtain ⟨d, hdbs⟩ := Option.isSome_iff_exists.mp hdb
        refine Or.inr (Or.inr ⟨rfl, by simp [hips0]; omega,
          by simp [hdbs, hend], ?_⟩)
        intro ip hips
        simp only [hips0] at hips ⊢
        obtain rfl := Option.some.inj hips
        simp [IPPool.release, Finset.not_mem_erase]
      · exact absurd hst hd

theorem sessInv_cleanup_clean {σ : Sess} (hip : σ.assignedIP = none)
    (hdb : σ.sessionDbId = none) (hrel : σ.releaseCalls = 0)
    (hend : σ.endSessionCalls = 0) :
    sessInv (Sess.cleanup { σ with pc := APc.idle }) := by
  unfold Sess.cleanup
  dsimp only
  by_cases hd : σ.sstate = SState.disconnected
  · rw [if_pos hd]
    refine ⟨by simp, by simp, fun _ => Or.inr (Or.inr ?_)⟩
    refine ⟨hd, by simp [hrel], by simp [hend], ?_⟩
    intro ip hips
    simp only [hip] at hips
    exact absurd hips (by simp)
  · rw [if_neg hd]
    refine ⟨by simp, by simp, fun _ => Or.inr (Or.inr ?_)⟩
    refine ⟨rfl, by simp [hip, hrel], by simp [hdb, hend], ?_⟩
    intro ip hips
    simp only [hip] at hips
    exact absurd hips (by simp)

theorem sessInv_step {σ : Sess} (h : sessInv σ) (e : SEv) :
    sessInv (Sess.step σ e) := by
  obtain ⟨h1, h2, h3⟩ := h
  cases e with
  | authMsg =>
    unfold Sess.step
    by_cases hc : σ.sstate = SState.connected
    · simp only [hc, ne_eq, not_true_eq_false, if_false]
      cases hpc : σ.pc with
      | awaitAuth =>
        rcases (h1 hpc).2.2.2.2 with hst | hst <;> rw [hc] at hst <;> cases hst
      | awaitCreate =>
        rcases (h2 hpc).2.2.2.2 with ⟨hst, _⟩ | hst <;> rw [hc] at hst <;>
          cases hst
      | idle =>
        rcases h3 hpc with ⟨_, hip, hdb, hrel, hend⟩ |
            ⟨hst, _⟩ | ⟨hst, _⟩
        · exact ⟨fun _ => ⟨hip, hdb, hrel, hend, Or.inl rfl⟩,
            by simp, by simp⟩
        · rw [hc] at hst; cases hst
        · rw [hc] at hst; cases hst
    · simp only [ne_eq, hc, not_false_eq_true, if_true]
      exact ⟨h1, h2, h3⟩
  | authResult ok uid =>
    unfold Sess.step
    by_cases hpc : σ.pc = APc.awaitAuth
    · simp only [hpc, ne_eq, not_true_eq_false, if_false]
      obtain ⟨hip, hdb, hrel, hend, hst⟩ := h1 hpc
      cases ok with
      | false =>
        rw [if_pos (by simp)]
        rw [close_eq_cleanup]
        exact sessInv_cleanup_clean hip hdb hrel hend
      | true =>
        rw [if_neg (by simp)]
        cases ha : σ.pool.allocate with
        | none =>
          show sessInv (Sess.close { σ with userId := some uid, pc := APc.idle })
          rw [close_eq_cleanup]
          exact sessInv_cleanup_clean (σ := { σ with userId := some uid })
            (by simpa using hip) (by simpa using hdb) (by simpa using hrel)
            (by simpa using hend)
        | some pr =>
          obtain ⟨ip, p2⟩ := pr
          show sessInv ({ σ with userId := some uid, assignedIP := some ip, pool := p2, pc := APc.awaitCreate })
          refine ⟨by simp, fun _ => ⟨by simp, by simpa using hdb,
            by simpa using hend, by simp [hrel], ?_⟩, by simp⟩
          rcases hst with hauth | hdisc
          · exact Or.inl ⟨by simpa using hauth, by simpa using hrel⟩
          · exact Or.inr (by simpa using hdisc)
    · simp only [ne_eq, hpc, not_false_eq_true, if_true]
      exact ⟨h1, h2, h3⟩
  | createResult dbId =>
    unfold Sess.step
    by_cases hpc : σ.pc = APc.awaitCreate
    · simp only [hpc, ne_eq, not_true_eq_false, if_false]
      obtain ⟨hip, hdb, hend, hrel, _⟩ := h2 hpc
      exact ⟨by simp, by simp, fun _ => Or.inr (Or.inl
        ⟨rfl, by simpa using hip, by simp, by simpa using hend,
          by simpa using hrel⟩)⟩
    · simp only [ne_eq, hpc, not_false_eq_true, if_true]
      exact ⟨h1, h2, h3⟩
  | clientDisconnect =>
    show sessInv (Sess.close σ)
    rw [close_eq_cleanup]; exact sessInv_cleanup ⟨h1, h2, h3⟩
  | sockClose => exact sessInv_cleanup ⟨h1, h2, h3⟩
  | sockError => exact sessInv_cleanup ⟨h1, h2, h3⟩
  | timeout =>
    show sessInv (Sess.close σ)
    rw [close_eq_cleanup]; exact sessInv_cleanup ⟨h1, h2, h3⟩
  | closeCall =>
    show sessInv (Sess.close σ)
    rw [close_eq_cleanup]; exact sessInv_cleanup ⟨h1, h2, h3⟩

theorem sessInv_run (evs : List SEv) :
    ∀ σ : Sess, sessInv σ → sessInv (Sess.run σ evs) := by
  induction evs with
  | nil => intro σ h; exact h
  | cons e evs ih =>
    intro σ h
    exact ih (Sess.step σ e) (sessInv_step h e)

theorem sessInv_initSess : sessInv initSess := by
  refine ⟨?_, ?_, ?_⟩ <;> intro hpc <;> first
    | exact absurd hpc (by decide)
    | exact Or.inl (by decide)

/-! ## Claim C6: a second AUTH_REQUEST

`handleAuth` begins with `if (this.state !== CONNECTED) return;`: an
AUTH_REQUEST in any state other than `Connected` is logged and ignored — in
`Authenticated`/`Active` it is not treated as a stream error and does not
move the session to `Disconnecting`. -/

/-- Counterexample to C6: a session driven to `Active` by a successful
authentication that then receives a second AUTH_REQUEST stays in `Active`
unchanged — it is not moved to `Disconnecting` as the claim requires for
AUTH_REQUEST in a post-`Authenticating` state. -/
theorem c6_counterexample :
    (Sess.run initSess
      [SEv.authMsg, SEv.authResult true 1, SEv.createResult 7]).sstate =
        SState.active ∧
    Sess.step (Sess.run initSess
      [SEv.authMsg, SEv.authResult true 1, SEv.createResult 7]) SEv.authMsg =
      Sess.run initSess
        [SEv.authMsg, SEv.authResult true 1, SEv.createResult 7] := by
  constructor <;> decide

/-- C6 as amended: an AUTH_REQUEST received in any state other than
`Connected` — `Authenticating`, `Authenticated`, `Active`, `Disconnecting`
or `Disconnected` — is ignored: the session is left completely unchanged,
and in particular is never torn down by it. -/
theorem c6_amended_repeat_auth_ignored (σ : Sess)
    (h : σ.sstate ≠ SState.connected) : Sess.step σ SEv.authMsg = σ := by
  unfold Sess.step
  simp [h]

/-- Witness for the amended C6 at the concrete `Active` session. -/
theorem c6_amended_witness :
    (Sess.run initSess
      [SEv.authMsg, SEv.authResult true 1, SEv.createResult 7]).sstate ≠
        SState.connected ∧
    Sess.step (Sess.run initSess
      [SEv.authMsg, SEv.authResult true 1, SEv.createResult 7]) SEv.authMsg =
      Sess.run initSess
        [SEv.authMsg, SEv.authResult true 1, SEv.createResult 7] :=
  ⟨by decide, c6_amended_repeat_auth_ignored _ (by decide)⟩

/-! ## Claim C8: assigned IP vs. session state

`handleAuth` stores the allocated IP while the session is still in
`Authenticating` and only moves to `Authenticated` after the persisted
session row is created: at the `createSession` suspension point the session
is observably `Authenticating` with an assigned IP, refuting the claimed
"iff state ≥ Authenticated". -/

/-- Counterexample to C8: after `authenticate` succeeds and the pool
allocates `10.8.0.2`, the session is suspended at `createSession` in state
`Authenticating` while already holding an assigned IP — the claim says a
session in `Authenticating` holds none. -/
theorem c8_counterexample :
    (Sess.run initSess [SEv.authMsg, SEv.authResult true 1]).sstate =
      SState.authenticating ∧
    (Sess.run initSess [SEv.authMsg, SEv.authResult true 1]).assignedIP =
      some addr10802 := by
  constructor <;> decide

/-- C8 as amended: in every reachable session state, the assigned IP is
absent in `Connected` and while `authenticate` is pending, present from the
moment of pool allocation — hence during the tail of `Authenticating`
(the `createSession` suspension) and in `Active` — and a quiescent
`Disconnected` session no longer holds a live pool lease. -/
theorem c8_amended_ip_placement (evs : List SEv) :
    ipPlacementCheck (Sess.run initSess evs) = true := by
  have h := sessInv_run evs initSess sessInv_initSess
  obtain ⟨h1, h2, h3⟩ := h
  set σ := Sess.run initSess evs with hσ
  unfold ipPlacementCheck
  simp only [Bool.and_eq_true, Bool.or_eq_true, Bool.not_eq_true,
    decide_eq_false_iff_not, decide_eq_true_eq]
  refine ⟨⟨⟨⟨?_, ?_⟩, ?_⟩, ?_⟩, ?_⟩
  · by_cases hc : σ.sstate = SState.connected
    · right
      cases hpc : σ.pc with
      | awaitAuth =>
        rcases (h1 hpc).2.2.2.2 with hst | hst <;> rw [hc] at hst <;>
          cases hst
      | awaitCreate =>
        rcases (h2 hpc).2.2.2.2 with ⟨hst, _⟩ | hst <;> rw [hc] at hst <;>
          cases hst
      | idle =>
        rcases h3 hpc with ⟨_, hip, _⟩ | ⟨hst, _⟩ | ⟨hst, _⟩
        · simp [hip]
        · rw [hc] at hst; cases hst
        · rw [hc] at hst; cases hst
    · left; simp [hc]
  · by_cases hpc : σ.pc = APc.awaitAuth
    · right; simp [(h1 hpc).1]
    · left; simp [hpc]
  · by_cases hpc : σ.pc = APc.awaitCreate
    · right; exact (h2 hpc).1
    · left; simp [hpc]
  · by_cases hact : σ.sstate = SState.active
    · right
      cases hpc : σ.pc with
      | awaitAuth =>
        rcases (h1 hpc).2.2.2.2 with hst | hst <;> rw [hact] at hst <;>
          cases hst
      | awaitCreate => exact (h2 hpc).1
      | idle =>
        rcases h3 hpc with ⟨hst, _⟩ | ⟨_, hip, _⟩ | ⟨hst, _⟩
        · rw [hact] at hst; cases hst
        · exact hip
        · rw [hact] at hst; cases hst
    · left; simp [hact]
  · by_cases hdi : σ.sstate = SState.disconnected ∧ σ.pc = APc.idle
    · right
      rcases h3 hdi.2 with ⟨hst, _⟩ | ⟨hst, _⟩ | ⟨_, _, _, hfree⟩
      · rw [hdi.1] at hst; cases hst
      · rw [hdi.1] at hst; cases hst
      · cases hips : σ.assignedIP with
        | none => simp
        | some ip => simpa using hfree ip hips
    · left; simp [hdi]

/-! ## Claim C10: teardown at-most-once

`cleanup` transitions to `Disconnected` synchronously before its first
`await` and later invocations return early.  That argument fails, however,
when a teardown runs while `handleAuth` is suspended at `createSession`:
the resumed continuation unconditionally sets the session back to
`Authenticated`/`Active`, so a second teardown passes the guard again and
releases the assigned IP a second time.  `endSession` is nevertheless
executed at most once, because a database session id only exists once the
auth flow has fully completed. -/

/-- Counterexample to C10: a socket error while the session awaits
`createSession`, followed by the resumed auth continuation and a keepalive
timeout, makes `ipPool.release` run twice for the same session. -/
theorem c10_counterexample :
    (Sess.run initSess
      [SEv.authMsg, SEv.authResult true 1, SEv.sockError,
        SEv.createResult 7, SEv.timeout]).releaseCalls = 2 := by
  decide

/-- C10 as amended: over every sequence of events, `endSession` runs at most
once, and `ipPool.release` at most twice — the second release only through
the completed-auth resurrection exhibited in the counterexample. -/
theorem c10_amended_teardown_counts (evs : List SEv) :
    (Sess.run initSess evs).endSessionCalls ≤ 1 ∧
      (Sess.run initSess evs).releaseCalls ≤ 2 := by
  have h := sessInv_run evs initSess sessInv_initSess
  obtain ⟨h1, h2, h3⟩ := h
  cases hpc : (Sess.run initSess evs).pc with
  | awaitAuth =>
    obtain ⟨_, _, hrel, hend, _⟩ := h1 hpc
    omega
  | awaitCreate =>
    obtain ⟨_, _, hend, hrel, _⟩ := h2 hpc
    omega
  | idle =>
    rcases h3 hpc with ⟨_, _, _, hrel, hend⟩ | ⟨_, _, _, hend, hrel⟩ |
      ⟨_, hrel, hend, _⟩ <;> omega

/-! ## Claim C1: reverse-path delivery and the IP index

`SessionManager` never binds the assigned IP at the Authenticated → Active
transition: `sessionsByIP` is populated only inside `handlePacket`, i.e.
when the session emits its first client-to-internet packet.  Until then,
`routePacket` finds no session for the address and the TUN datagram is
dropped. -/

theorem getSession_updateSession (m : Manager) (sid : Nat)
    (f : RSession → RSession) (hf : ∀ s, (f s).sid = s.sid) :
    (m.updateSession sid f).getSession sid = (m.getSession sid).map f := by
  obtain ⟨ss, byIP⟩ := m
  unfold Manager.updateSession Manager.getSession
  simp only
  induction ss with
  | nil => rfl
  | cons s rest ih =>
    by_cases hs : s.sid = sid
    · rw [List.map_cons, if_pos hs,
        List.find?_cons_of_pos _ (by simp [hf s, hs]),
        List.find?_cons_of_pos _ (by simp [hs])]
      rfl
    · rw [List.map_cons, if_neg hs,
        List.find?_cons_of_neg _ (by simp [hs]),
        List.find?_cons_of_neg _ (by simp [hs])]
      exact ih

theorem getSession_handlePacket (m : Manager) (sid srcKey qid : Nat) :
    (m.handlePacket sid srcKey).getSession qid = m.getSession qid := by
  unfold Manager.handlePacket
  by_cases hb : (m.lookupIP srcKey).isNone
  · rw [if_pos hb]; rfl
  · rw [if_neg hb]

theorem lookupIP_handlePacket_self (m : Manager) (sid a : Nat)
    (hbind : m.lookupIP a = none ∨ m.lookupIP a = some sid) :
    (m.handlePacket sid a).lookupIP a = some sid := by
  unfold Manager.handlePacket
  rcases hbind with hnone | hsome
  · rw [if_pos (by simp [hnone])]
    unfold Manager.lookupIP at hnone ⊢
    rw [List.find?_append]
    have hfn : m.sessionsByIP.find? (fun e => e.1 = a) = none := by
      cases hf : m.sessionsByIP.find? (fun e => e.1 = a) with
      | none => rfl
      | some e => rw [hf] at hnone; simp at hnone
    rw [hfn]
    simp
  · rw [if_neg (by simp [hsome])]
    exact hsome

/-- C1 as amended: the IP index is populated lazily — entry to `Active`
leaves it untouched, and the binding appears when the session emits its
first client-to-internet packet (`handlePacket`).  Once the session's
assigned IP is bound to it and the session is `Active`, every TUN datagram
of at least 20 bytes whose IPv4 destination is that address is delivered to
the session as exactly one framed DATA_PACKET. -/
theorem c1_amended_lazy_ip_binding (m : Manager) (sid a : Nat)
    (s : RSession) (pkt : List Nat)
    (hs : m.getSession sid = some s) (hact : s.sstate = SState.active)
    (hbind : m.lookupIP a = none ∨ m.lookupIP a = some sid)
    (hlen : 20 ≤ pkt.length) (hdest : extractDestKey pkt = a) :
    (m.handlePacket sid a).lookupIP a = some sid ∧
      (routeToClient (m.handlePacket sid a) pkt).getSession sid =
        some { s with sentFrames := s.sentFrames ++ [serializeDataPacket pkt] } := by
  have hlk : (m.handlePacket sid a).lookupIP a = some sid :=
    lookupIP_handlePacket_self m sid a hbind
  refine ⟨hlk, ?_⟩
  unfold routeToClient
  rw [if_neg (by omega), hdest]
  unfold Manager.routePacket
  rw [hlk]
  show ((m.handlePacket sid a).updateSession sid
      (fun s0 => s0.sendPacket pkt)).getSession sid =
    some { s with sentFrames := s.sentFrames ++ [serializeDataPacket pkt] }
  rw [getSession_updateSession _ sid _ (fun s0 => by
    unfold RSession.sendPacket
    by_cases h0 : s0.sstate = SState.active
    · rw [if_pos h0]
    · rw [if_neg h0])]
  rw [getSession_handlePacket, hs]
  show some (s.sendPacket pkt) =
    some { s with sentFrames := s.sentFrames ++ [serializeDataPacket pkt] }
  unfold RSession.sendPacket
  rw [if_pos hact]

/-- Witness for the amended C1: the `Active` session with `10.8.0.2` emits
one client packet, after which the 20-byte TUN datagram destined to
`10.8.0.2` is delivered to it as exactly one framed DATA_PACKET. -/
theorem c1_amended_witness :
    (mgrActiveUnbound.handlePacket 1 addr10802).lookupIP addr10802 =
      some 1 ∧
    (routeToClient (mgrActiveUnbound.handlePacket 1 addr10802)
        pktTo10802).getSession 1 =
      some ⟨1, SState.active, some addr10802,
        [serializeDataPacket pktTo10802]⟩ :=
  c1_amended_lazy_ip_binding mgrActiveUnbound 1 addr10802
    ⟨1, SState.active, some addr10802, []⟩ pktTo10802 (by decide) (by decide)
    (Or.inl (by decide)) (by decide) (by decide)

/-- Counterexample to C1: a session that has entered `Active` with
`10.8.0.2` but has emitted no client-to-internet packet is absent from the
IP index, and a 20-byte TUN datagram destined to `10.8.0.2` is dropped —
its list of written frames stays empty instead of receiving exactly one
DATA_PACKET. -/
theorem c1_counterexample :
    (mgrActiveUnbound.getSession 1).map (fun s => s.sstate) =
      some SState.active ∧
    (mgrActiveUnbound.getSession 1).map (fun s => s.assignedIP) =
      some (some addr10802) ∧
    mgrActiveUnbound.lookupIP addr10802 = none ∧
    20 ≤ pktTo10802.length ∧
    extractDestKey pktTo10802 = addr10802 ∧
    (routeToClient mgrActiveUnbound pktTo10802).getSession 1 =
      some ⟨1, SState.active, some addr10802, []⟩ := by
  refine ⟨?_, ?_, ?_, ?_, ?_, ?_⟩ <;> decide

end OpenTunnel
